import Mathlib

/-
Verification development for the cqia analysis core
(src/cqia/analysis plus the parsing IR it consumes).

Modelling conventions used throughout this file:
  * Python `float` values are modelled by `ℚ` (no claim settled here depends
    on binary rounding; all arithmetic in the scoring/similarity code is on
    small decimal constants and ratios of small integers).
  * Python `dict` objects are modelled by insertion-ordered association
    lists (`List (String × α)`) with first-match lookup; `set` objects by
    `Finset`.
  * Python `str` is `String`; `pathlib.Path` values that the code only ever
    passes through `str(...)` are modelled directly as their `String` form.
  * Fallible calls are modelled with `Except`/`Option`; external library
    behaviour (CPython `ast.parse`, networkx `simple_cycles`) enters the
    model as explicit data/parameters, so every theorem quantifies over it.
-/

namespace CQIA

/-- Python `int(x)` on a rational float value: truncation toward zero.
`Int` division in Lean rounds toward zero, and a `Rat` is stored in lowest
terms with positive denominator, so `num / den` is exactly that truncation. -/
def pyInt (q : ℚ) : ℤ := q.num / (q.den : ℤ)

/-- Characters stripped by Python `str.strip()` (ASCII whitespace; the
sources only ever contain ASCII module keys). -/
def isPyWhitespace (c : Char) : Bool :=
  c == ' ' || c == '\t' || c == '\n' || c == '\r' || c == '\x0b' || c == '\x0c'

/-- Python `str.strip()`. -/
def pyStrip (s : String) : String :=
  String.mk (((s.toList.dropWhile isPyWhitespace).reverse.dropWhile isPyWhitespace).reverse)

/-- Python `d.get(k, default)` / `d[k]` on an insertion-ordered dict model. -/
def dictGet (d : List (String × α)) (k : String) (default : α) : α :=
  match d.find? (fun p => p.1 == k) with
  | some p => p.2
  | none => default

/-- Python `d[k] = v`: replace in place when the key exists, else append. -/
def dictSet (d : List (String × α)) (k : String) (v : α) : List (String × α) :=
  if d.any (fun p => p.1 == k) then
    d.map (fun p => if p.1 == k then (p.1, v) else p)
  else
    d ++ [(k, v)]

/-- Python `d.setdefault(k, 0.0); d[k] += v` as used for the per-file
complexity aggregation in `run_analysis`. -/
def dictAdd (d : List (String × ℚ)) (k : String) (v : ℚ) : List (String × ℚ) :=
  if d.any (fun p => p.1 == k) then
    d.map (fun p => if p.1 == k then (p.1, p.2 + v) else p)
  else
    d ++ [(k, v)]

/-- Keys of a dict model, in insertion order. -/
def dictKeys (d : List (String × α)) : List String := d.map (fun p => p.1)

/-
Embedding of src/cqia/analysis/severity.py.
-/

/-- The module-level `DEFAULT_WEIGHTS` mapping of severity.py, in source
order. -/
def DEFAULT_WEIGHTS : List (String × ℚ) :=
  [("security", 1.0), ("complexity", 0.6), ("duplication", 0.5),
   ("performance", 0.6), ("documentation", 0.3), ("testing", 0.7)]

/-- severity.py `_clamp01`. -/
def clamp01 (x : ℚ) : ℚ := if x < 0 then 0 else if x > 1 then 1 else x

/-- severity.py `_to_severity`. -/
def toSeverity (x : ℚ) : String :=
  if x ≥ 0.80 then "P0"
  else if x ≥ 0.60 then "P1"
  else if x ≥ 0.40 then "P2"
  else "P3"

/-- severity.py `score_security`. -/
def score_security (weight : ℚ) : ℚ := clamp01 weight

/-- severity.py `score_complexity`: `norm = max(0.0, (cc - warn_at) / (warn_at * 2.0))`
then `_clamp01(norm * weight)`.  (In Python `warn_at = 0` would raise
`ZeroDivisionError`; every claim about this function assumes `warn_at > 0`,
matching the positive thresholds the callers pass.) -/
def score_complexity (cc weight : ℚ) (warn_at : ℚ := 10) : ℚ :=
  let norm := max 0 ((cc - warn_at) / (warn_at * 2))
  clamp01 (norm * weight)

/-- severity.py `score_duplication`. -/
def score_duplication (sim weight : ℚ) : ℚ := clamp01 (sim * weight)

/-- severity.py `pick_severity` (the category argument is ignored by the
source code as well). -/
def pick_severity (_category : String) (raw : ℚ) : String := toSeverity raw

/-- A Python value supplied in a weights-override mapping; only the
numeric/non-numeric distinction matters to `override_weights`
(`isinstance(v, (int, float))`). -/
inductive PyVal where
  | num (q : ℚ)
  | str (s : String)
  | other
deriving DecidableEq

/-- Name-binding state for the module-level weights.  `runner.py` executes
`from cqia.analysis.severity import DEFAULT_WEIGHTS` at import time, which
copies the binding into runner's namespace; `override_weights` later
REBINDS `severity.DEFAULT_WEIGHTS` to a fresh dict (it does not mutate the
old object), so the two bindings evolve independently.  The state carries
both bindings explicitly. -/
structure WeightsState where
  severityWeights : List (String × ℚ)
  runnerWeights : List (String × ℚ)
deriving DecidableEq

/-- Both modules start out bound to the initial `DEFAULT_WEIGHTS` dict. -/
def initWeights : WeightsState := ⟨DEFAULT_WEIGHTS, DEFAULT_WEIGHTS⟩

/-- The update loop of `override_weights`: for every entry with a numeric
value, store `float(v)`; silently skip every other entry. -/
def applyNumericEntries (w : List (String × ℚ)) (m : List (String × PyVal)) :
    List (String × ℚ) :=
  m.foldl (fun acc kv =>
    match kv.2 with
    | PyVal.num q => dictSet acc kv.1 q
    | _ => acc) w

/-- severity.py `override_weights`: `if not new_weights: return` (both
`None` and an empty dict are falsy), otherwise copy the current severity
binding, apply the numeric entries, and rebind `severity.DEFAULT_WEIGHTS`.
The runner-module binding is untouched because rebinding a module global
never updates a name imported earlier with `from ... import`. -/
def override_weights (st : WeightsState) (new_weights : Option (List (String × PyVal))) :
    WeightsState :=
  match new_weights with
  | none => st
  | some m =>
      if m.isEmpty then st
      else { st with severityWeights := applyNumericEntries st.severityWeights m }

/-
Embedding of src/cqia/parsing/ir.py (the IR data shapes).
-/

/-- ir.py `Span` (the `Path` is kept in its `str` form). -/
structure Span where
  path : String
  start_line : ℤ
  end_line : ℤ
deriving DecidableEq

/-- ir.py `FunctionIR`.  The `metrics : dict[str, float]` mapping is the
association-list dict model. -/
structure FunctionIR where
  id : String
  name : String
  lang : String
  span : Span
  doc : Option String
  text : String
  metrics : List (String × ℚ)
deriving DecidableEq

/-- ir.py `ModuleIR`. -/
structure ModuleIR where
  path : String
  lang : String
  functions : List FunctionIR
deriving DecidableEq

/-
Embedding of src/cqia/parsing/python_parser.py.

CPython's `ast` module is external, so its node shapes enter the model as a
small inductive covering exactly the kinds python_parser.py inspects
(`BRANCH_NODES`, `ExceptHandler`, `FunctionDef`/`AsyncFunctionDef`); every
other construct is `other`.  Source locations and the source segment /
docstring that `parse_python` reads off a `FunctionDef` node are carried on
the constructor, since they are attributes of the CPython node.
-/

inductive NodeKind where
  | ifStmt
  | forStmt
  | whileStmt
  | tryStmt
  | withStmt
  | boolOp
  | ifExp
  | exceptHandler
  | functionDef (isAsync : Bool) (name : String) (lineno endLineno : ℤ)
      (docstring : Option String) (segment : String)
  | moduleNode
  | other
deriving DecidableEq

/-- A CPython AST node: a kind plus child nodes. -/
inductive PyNode where
  | mk (kind : NodeKind) (children : List PyNode)

/-- Node kind accessor. -/
def PyNode.kind : PyNode → NodeKind
  | .mk k _ => k

/-- Children accessor. -/
def PyNode.children : PyNode → List PyNode
  | .mk _ cs => cs

mutual

/-- Structural size of a node (termination measure for the BFS walk). -/
def PyNode.size : PyNode → Nat
  | .mk _ cs => 1 + PyNode.sizeList cs

/-- Total size of a list of nodes. -/
def PyNode.sizeList : List PyNode → Nat
  | [] => 0
  | n :: ns => PyNode.size n + PyNode.sizeList ns

end

/-- Breadth-first traversal from a work queue: exactly the order of
CPython's `ast.walk` (pop from the front, append children at the back).
Every step removes one node from the tree being traversed, so the total
node count of the queue is an exact step budget; it is passed structurally
so that evaluation is definitional (`walkQueue_fuel` below shows any
larger budget computes the same list). -/
def walkQueueF : ℕ → List PyNode → List PyNode
  | 0, _ => []
  | _, [] => []
  | fuel + 1, n :: rest => n :: walkQueueF fuel (rest ++ n.children)

/-- The BFS with its exact budget. -/
def walkQueue (q : List PyNode) : List PyNode := walkQueueF (PyNode.sizeList q) q

/-- `ast.walk(node)`. -/
def walk (n : PyNode) : List PyNode := walkQueue [n]

/-- python_parser.py `BRANCH_NODES` membership, plus the `ExceptHandler`
case that `_complexity_count` counts separately. -/
def countsAsBranch (k : NodeKind) : Bool :=
  match k with
  | .ifStmt | .forStmt | .whileStmt | .tryStmt | .withStmt
  | .boolOp | .ifExp | .exceptHandler => true
  | _ => false

/-- python_parser.py `_complexity_count`: walk the subtree and count every
branch construct / exception handler once. -/
def complexityCount (n : PyNode) : ℕ :=
  ((walk n).filter (fun c => countsAsBranch c.kind)).length

/-- The `FunctionIR` that `parse_python` builds for one
`FunctionDef`/`AsyncFunctionDef` node. -/
def functionIRofNode (path : String) (name : String) (startL endL : ℤ)
    (doc : Option String) (segment : String) (n : PyNode) : FunctionIR :=
  { id := path ++ "::" ++ name ++ ":" ++ toString startL
    name := name
    lang := "python"
    span := { path := path, start_line := startL, end_line := endL }
    doc := doc
    text := segment
    metrics := [("complexity_branch_count", (complexityCount n : ℚ))] }

/-- python_parser.py `parse_python`.  `ast.parse(text)` is external, so the
function consumes its outcome: `Except.error` models the `SyntaxError`
CPython raises on unparseable text.  Crucially the source has NO handler
around `ast.parse`, so an error outcome propagates unchanged. -/
def parse_python (path : String) (astOutcome : Except String PyNode) :
    Except String ModuleIR :=
  match astOutcome with
  | .error e => .error e
  | .ok tree =>
      .ok { path := path
            lang := "python"
            functions := (walk tree).filterMap (fun n =>
              match n.kind with
              | .functionDef _ name s e doc seg =>
                  some (functionIRofNode path name s e doc seg n)
              | _ => none) }

/-- Python `str.lower()` on one ASCII character. -/
def pyLowerChar (c : Char) : Char :=
  if 'A' ≤ c ∧ c ≤ 'Z' then Char.ofNat (c.toNat + 32) else c

/-- Python `str.lower()` (ASCII; paths are ASCII in every modelled run). -/
def pyLower (s : String) : String := String.mk (s.toList.map pyLowerChar)

/-- Python `str.endswith(suffix)`. -/
def strEndsWith (s sfx : String) : Bool := sfx.toList.isSuffixOf s.toList

/-- runner.py `_detect_language`. -/
def detectLanguage (path : String) : String :=
  let p := pyLower path
  if strEndsWith p ".py" then "python"
  else if strEndsWith p ".ts" then "typescript"
  else if strEndsWith p ".js" then "javascript"
  else "unknown"

/-- One walked input file for `_parse_modules`: its relative path together
with the outcome of `ast.parse` on its (already-read) text.  The
`try/except` in `_parse_modules` wraps only the file read, never the parse
call, so the read result is already folded in. -/
structure SourceFile where
  rel : String
  astOutcome : Except String PyNode

/-- runner.py `_parse_modules`.  JavaScript/TypeScript extraction
(`parse_js_ts`) wraps its whole body in `try/except` and always returns a
module, so it is passed in as a total function; the Python branch calls
`parse_python` bare, so a `SyntaxError` escapes the loop and the whole
call. -/
def parseModules (jsParse : String → String → ModuleIR) :
    List SourceFile → Except String (List ModuleIR)
  | [] => .ok []
  | f :: rest =>
      let lang := detectLanguage f.rel
      if lang = "python" then
        match parse_python f.rel f.astOutcome with
        | .error e => .error e
        | .ok m =>
            match parseModules jsParse rest with
            | .error e => .error e
            | .ok ms => .ok (m :: ms)
      else
        let m := if lang = "javascript" ∨ lang = "typescript" then
            jsParse f.rel lang
          else
            { path := f.rel, lang := "unknown", functions := [] }
        match parseModules jsParse rest with
        | .error e => .error e
        | .ok ms => .ok (m :: ms)

/-
Embedding of src/cqia/analysis/detectors/complexity.py.
-/

/-- complexity.py `ComplexityFinding`. -/
structure ComplexityFinding where
  id : String
  category : String
  message : String
  file : String
  start_line : ℤ
  end_line : ℤ
  value : ℚ
  threshold : ℚ
deriving DecidableEq

/-- complexity.py `detect_complexity`: `decisions = int(metrics.get("complexity_branch_count", 0))`,
`complexity = 1 + decisions`, emit when `complexity >= warn_at`. -/
def detect_complexity (functions : List FunctionIR) (warn_at : ℤ := 10) :
    List ComplexityFinding :=
  functions.filterMap (fun fn =>
    let decisions := pyInt (dictGet fn.metrics "complexity_branch_count" 0)
    let complexity := 1 + decisions
    if complexity ≥ warn_at then
      some { id := fn.id ++ "#complexity"
             category := "complexity"
             message := "High cyclomatic complexity: " ++ toString complexity ++
               " (≥ " ++ toString warn_at ++ ")"
             file := fn.span.path
             start_line := fn.span.start_line
             end_line := fn.span.end_line
             value := (complexity : ℚ)
             threshold := (warn_at : ℚ) }
    else none)

/-
Embedding of the scoring stage of src/cqia/analysis/runner.py
(`_score_all_findings`).  The explanation strings (`explain`, `fix_text`,
`title`) are pure presentation and are not consulted by any claim, so the
`ScoredFinding` model carries the decision-relevant fields.
-/

/-- security.py `SecFinding` (fields read by `_score_all_findings`). -/
structure SecFinding where
  id : String
  category : String
  message : String
  file : String
  start_line : ℤ
  end_line : ℤ
deriving DecidableEq

/-- severity.py `ScoredFinding` (decision-relevant fields). -/
structure ScoredFinding where
  id : String
  category : String
  severity : String
  score : ℚ
  file : String
  start_line : ℤ
  end_line : ℤ
deriving DecidableEq

/-- The `_push` record construction shared by all scoring branches:
severity from `pick_severity`, line numbers clamped with `max(1, int(..))`,
the file string stripped. -/
def pushScored (cat : String) (fid : String) (file : String) (s e : ℤ)
    (scoreVal : ℚ) : ScoredFinding :=
  { id := fid
    category := cat
    severity := pick_severity cat scoreVal
    score := scoreVal
    file := pyStrip file
    start_line := max 1 s
    end_line := max 1 e }

/-- The security branch of `_score_all_findings`:
`base = score_security(w["security"])` where `w` is the runner module's
`DEFAULT_WEIGHTS` binding. -/
def runnerScoreSecurity (w : List (String × ℚ)) (f : SecFinding) : ScoredFinding :=
  let base := score_security (dictGet w "security" 0)
  pushScored "security" f.id f.file f.start_line f.end_line base

/-- The complexity branch of `_score_all_findings`:
`thr = float(warn_at or getattr(f, "threshold", 10))` (so `None` AND `0`
fall back to the finding's own threshold), then
`base = score_complexity(val, w["complexity"], thr)`. -/
def runnerScoreComplexity (w : List (String × ℚ)) (warnAt : Option ℤ)
    (f : ComplexityFinding) : ScoredFinding :=
  let val := f.value
  let thr : ℚ := match warnAt with
    | none => f.threshold
    | some n => if n = 0 then f.threshold else (n : ℚ)
  let base := score_complexity val (dictGet w "complexity" 0) thr
  pushScored "complexity" f.id f.file f.start_line f.end_line base

/-
Embedding of src/cqia/analysis/detectors/duplication.py.
-/

/-- First character class of the identifier alternative `[A-Za-z_]`. -/
def isIdentStart (c : Char) : Bool := c.isAlpha || c == '_'

/-- Continuation class `[A-Za-z0-9_]`. -/
def isIdentCont (c : Char) : Bool := isIdentStart c || c.isDigit

/-- The single-character class of `_TOKEN_RE`:
`[{}()\[\];,.\+\-\*/%<>]`. -/
def isPunctChar (c : Char) : Bool :=
  c == '\x7b' || c == '\x7d' || c == '(' || c == ')' || c == '[' || c == ']' ||
  c == ';' || c == ',' || c == '.' || c == '+' || c == '-' || c == '*' ||
  c == '/' || c == '%' || c == '<' || c == '>'

/-- One attempt of `re.findall(_TOKEN_RE, text)` at the current position: try the pattern
alternatives in order (identifier, digit run, the two-character operators,
the punctuation class); return the matched token (or none, when the regex
fails here and the scanner advances one character) together with the
remaining input.  The two-character operators only need a case when their
first character is not already claimed by an earlier alternative. -/
def nextToken (c : Char) (rest : List Char) : Option String × List Char :=
  if isIdentStart c then
    (some (String.mk (c :: rest.takeWhile isIdentCont)),
      rest.drop (rest.takeWhile isIdentCont).length)
  else if c.isDigit then
    (some (String.mk (c :: rest.takeWhile (fun d => d.isDigit))),
      rest.drop (rest.takeWhile (fun d => d.isDigit)).length)
  else if c == '=' then
    if rest.head? == some '=' then (some "==", rest.tail) else (none, rest)
  else if c == '!' then
    if rest.head? == some '=' then (some "!=", rest.tail) else (none, rest)
  else if c == '<' then
    if rest.head? == some '=' then (some "<=", rest.tail) else (some "<", rest)
  else if c == '>' then
    if rest.head? == some '=' then (some ">=", rest.tail) else (some ">", rest)
  else if c == '&' then
    if rest.head? == some '&' then (some "&&", rest.tail) else (none, rest)
  else if c == '|' then
    if rest.head? == some '|' then (some "||", rest.tail) else (none, rest)
  else if isPunctChar c then
    (some (String.mk [c]), rest)
  else
    (none, rest)

/-- The scan loop of `re.findall(_TOKEN_RE, text)`: at each position match
one token via `nextToken` (the head character plus possibly more is always
consumed, so the character count is a sufficient step budget, passed
structurally so evaluation is definitional; `scanTokensF_fuel` shows any
larger budget computes the same tokens). -/
def scanTokensF : ℕ → List Char → List String
  | 0, _ => []
  | _, [] => []
  | fuel + 1, c :: rest =>
      match nextToken c rest with
      | (some t, rem) => t :: scanTokensF fuel rem
      | (none, rem) => scanTokensF fuel rem

/-- The scanner with its exact budget. -/
def scanTokens (cs : List Char) : List String := scanTokensF cs.length cs

/-- Python `str.isidentifier()` restricted to the ASCII tokens the
tokenizer can produce (keywords included: CPython's `isidentifier` does not
exclude them). -/
def pyIsIdentifier (s : String) : Bool :=
  match s.toList with
  | [] => false
  | c :: cs => isIdentStart c && cs.all isIdentCont

/-- Python `str.isdigit()` on ASCII tokens. -/
def pyIsDigit (s : String) : Bool :=
  match s.toList with
  | [] => false
  | l => l.all (fun c => c.isDigit)

/-- duplication.py `normalize`: tokenize, then collapse identifiers to
`"ID"` and digit runs to `"NUM"`, keeping operators/punctuation literal. -/
def normalize (text : String) : List String :=
  (scanTokens text.toList).map (fun t =>
    if pyIsIdentifier t then "ID"
    else if pyIsDigit t then "NUM"
    else t)

/-- duplication.py `shingles`: the set of contiguous `k`-token windows
(empty when the stream is shorter than `k`). -/
def shingles (tokens : List String) (k : ℕ := 7) : Finset (List String) :=
  if tokens.length < k then ∅
  else ((List.range (tokens.length - k + 1)).map
    (fun i => (tokens.drop i).take k)).toFinset

/-- duplication.py `jaccard`. -/
def jaccard (a b : Finset (List String)) : ℚ :=
  if a = ∅ ∧ b = ∅ then 0
  else
    let inter := (a ∩ b).card
    let uni := (a ∪ b).card
    if uni = 0 then 0 else (inter : ℚ) / (uni : ℚ)

/-- Render a rational with exactly two decimal digits, rounding ties to
even, modelling Python's `f"{sim:.2f}"` on the (non-negative) similarity
values that arise. -/
def fmt2 (q : ℚ) : String :=
  let m100 := q * 100
  let f : ℤ := Int.floor m100
  let frac := m100 - (f : ℚ)
  let n : ℤ :=
    if frac > 1/2 then f + 1
    else if frac < 1/2 then f
    else if f % 2 = 0 then f else f + 1
  let ip := n / 100
  let fp := (n % 100).toNat
  toString ip ++ "." ++ (if fp < 10 then "0" else "") ++ toString fp

/-- duplication.py `DupFinding`. -/
structure DupFinding where
  id : String
  category : String
  message : String
  files : String × String
  lines : (ℤ × ℤ) × (ℤ × ℤ)
  similarity : ℚ
deriving DecidableEq

/-- The candidate-selection loop of `detect_duplication`: keep functions
whose text length is at most `max_len`, stopping as soon as the list has
reached `max_funcs` entries (the cap is re-checked after every iteration). -/
def selectCandidates (maxFuncs maxLen : ℕ) :
    List FunctionIR → List FunctionIR → List FunctionIR
  | [], acc => acc
  | fn :: rest, acc =>
      let acc' := if fn.text.length ≤ maxLen then acc ++ [fn] else acc
      if maxFuncs ≤ acc'.length then acc'
      else selectCandidates maxFuncs maxLen rest acc'

/-- The `DupFinding` built for one reported pair, including the span
normalization `(s if s > 0 else 1, e if e >= s else s)`. -/
def mkDupFinding (fi fj : FunctionIR) (sim : ℚ) : DupFinding :=
  let iS := fi.span.start_line
  let iE := fi.span.end_line
  let jS := fj.span.start_line
  let jE := fj.span.end_line
  { id := fi.id ++ "~" ++ fj.id ++ "#dup"
    category := "duplication"
    message := "Near-duplicate functions (Jaccard " ++ fmt2 sim ++ ")"
    files := (fi.span.path, fj.span.path)
    lines := ((if iS > 0 then iS else 1, if iE ≥ iS then iE else iS),
              (if jS > 0 then jS else 1, if jE ≥ jS then jE else jS))
    similarity := sim }

/-- The inner `for j in range(i+1, ...)` loop, run against the suffix of
candidates after position `i`: skip different-language partners and empty
shingle sets, emit when `sim >= threshold` and the two source files
differ. -/
def dupInner (fi : FunctionIR) (si : Finset (List String)) (threshold : ℚ)
    (rest : List (FunctionIR × Finset (List String))) : List DupFinding :=
  rest.filterMap (fun gj =>
    if fi.lang ≠ gj.1.lang then none
    else if gj.2 = ∅ then none
    else
      let sim := jaccard si gj.2
      if sim ≥ threshold ∧ fi.span.path ≠ gj.1.span.path then
        some (mkDupFinding fi gj.1 sim)
      else none)

/-- The outer comparison loop.  `budgetHit i` models
`time.time() - start > time_budget_s` observed at the top of outer
iteration `i`: when it fires the loop breaks, returning what was
accumulated; wall-clock time is external, so every theorem quantifies over
this oracle.  A function with an empty shingle set only skips its own inner
loop (`continue`). -/
def dupOuter (budgetHit : ℕ → Bool) (threshold : ℚ) :
    ℕ → List (FunctionIR × Finset (List String)) → List DupFinding
  | _, [] => []
  | i, p :: rest =>
      if budgetHit i then []
      else
        (if p.2 = ∅ then [] else dupInner p.1 p.2 threshold rest) ++
          dupOuter budgetHit threshold (i + 1) rest

/-- duplication.py `detect_duplication`. -/
def detect_duplication (functions : List FunctionIR) (k : ℕ := 7)
    (threshold : ℚ := 0.90) (max_funcs : ℕ := 400) (max_len : ℕ := 2000)
    (budgetHit : ℕ → Bool := fun _ => false) : List DupFinding :=
  let fnList := selectCandidates max_funcs max_len functions []
  dupOuter budgetHit threshold 0
    (fnList.map (fun fn => (fn, shingles (normalize fn.text) k)))

/-
Embedding of src/cqia/analysis/dependency_graph.py.

A networkx `DiGraph` built only through `add_edge` is a simple directed
graph: it is modelled as the `Finset` of its edges.  `nx.simple_cycles` is
an external library routine, so `build_dep_graph` takes it as a parameter
(`cyclesImpl`); every truncation theorem quantifies over it.
-/

/-- dependency_graph.py `DepEdge`. -/
structure DepEdge where
  src : String
  dst : String
deriving DecidableEq

/-- dependency_graph.py `DepMetrics` (fan maps as association lists in the
node iteration order; the claims only consult them pointwise and by sum,
which the `Finset` forms below express). -/
structure DepMetrics where
  fan_in : List (String × ℤ)
  fan_out : List (String × ℤ)
  cycles : List (List String)
  top_fan_in : List (String × ℤ)
  top_fan_out : List (String × ℤ)
deriving DecidableEq

/-- One step of the edge-insertion loop of `build_dep_graph`: strip both
endpoints, drop the edge when either is empty or they coincide, insert
otherwise (duplicates collapse in the simple digraph). -/
def addDepEdge (G : Finset (String × String)) (e : DepEdge) :
    Finset (String × String) :=
  let src := pyStrip e.src
  let dst := pyStrip e.dst
  if src = "" ∨ dst = "" ∨ src = dst then G else insert (src, dst) G

/-- The edge-insertion loop of `build_dep_graph`. -/
def buildGraphEdges (edges : List DepEdge) : Finset (String × String) :=
  edges.foldl addDepEdge ∅

/-- The node set of the built graph (every endpoint of a kept edge). -/
def graphNodes (G : Finset (String × String)) : Finset String :=
  G.image Prod.fst ∪ G.image Prod.snd

/-- `G.in_degree(n)`. -/
def fanInDeg (G : Finset (String × String)) (n : String) : ℕ :=
  (G.filter (fun e => e.2 = n)).card

/-- `G.out_degree(n)`. -/
def fanOutDeg (G : Finset (String × String)) (n : String) : ℕ :=
  (G.filter (fun e => e.1 = n)).card

/-- Python `sorted(items, key=lambda x: x[1], reverse=True)[:10]` used for
the top fan-in/fan-out lists (stable descending sort by value). -/
def topTen (items : List (String × ℤ)) : List (String × ℤ) :=
  (items.insertionSort (fun a b => a.2 ≥ b.2)).take 10

/-- dependency_graph.py `build_dep_graph`, with `nx.simple_cycles`
abstracted as `cyclesImpl` and the `fan_in`/`fan_out` dict comprehensions
materialized over a fixed enumeration of the node set.  The cycle list is
truncated to the first 10 cycles, each cut to its first 8 nodes. -/
def build_dep_graph (cyclesImpl : Finset (String × String) → List (List String))
    (edges : List DepEdge) : Finset (String × String) × DepMetrics :=
  let G := buildGraphEdges edges
  let nodes := (graphNodes G).sort (· ≤ ·)
  let fanIn := nodes.map (fun n => (n, (fanInDeg G n : ℤ)))
  let fanOut := nodes.map (fun n => (n, (fanOutDeg G n : ℤ)))
  let rawCycles := cyclesImpl G
  (G, { fan_in := fanIn
        fan_out := fanOut
        cycles := (rawCycles.take 10).map (fun c => c.take 8)
        top_fan_in := topTen fanIn
        top_fan_out := topTen fanOut })

/-
Embedding of the hotspot stage of src/cqia/analysis/runner.py
(`run_analysis`).
-/

/-- runner.py `_norm`: `0.0` when the maximum is `0`, else the ratio. -/
def norm (val maxVal : ℚ) : ℚ := if maxVal = 0 then 0 else val / maxVal

/-- Python `x or 1` on a number: `1` when `x == 0`. -/
def orOne (x : ℚ) : ℚ := if x = 0 then 1 else x

/-- Python `max(values, default=0)` over the values of the dict model. -/
def maxValuesQ (d : List (String × ℚ)) : ℚ :=
  match d with
  | [] => 0
  | p :: rest => rest.foldl (fun a q => max a q.2) p.2

/-- Python `max(values, default=0)` over integer dict values. -/
def maxValuesZ (d : List (String × ℤ)) : ℤ :=
  match d with
  | [] => 0
  | p :: rest => rest.foldl (fun a q => max a q.2) p.2

/-- Index of the last occurrence of `c` (Python `str.rfind`, as `Option`). -/
def rfindIdx (cs : List Char) (c : Char) : Option ℕ :=
  if c ∈ cs then some (cs.length - 1 - cs.reverse.indexOf c) else none

/-- `pathlib.Path(p).stem` for a POSIX-style path string: the final
component with its last suffix removed; a suffix requires the final dot to
be neither the first nor the last character of the name (CPython:
`0 < name.rfind('.') < len(name) - 1`). -/
def pyStem (p : String) : String :=
  let name := (p.splitOn "/").getLastD ""
  let cs := name.toList
  match rfindIdx cs '.' with
  | none => name
  | some idx =>
      if 0 < idx ∧ idx + 1 < cs.length then String.mk (cs.take idx) else name

/-- One row of the `hotspots` list built by `run_analysis`:
`(str(path_str), float(score_val), int(fi_val), float(comp_val))`. -/
structure HotspotRow where
  path : String
  score : ℚ
  fan_in : ℤ
  comp : ℚ
deriving DecidableEq

/-- The per-file complexity aggregation `comp_map` of `run_analysis`:
`comp_map.setdefault(f.file, 0.0); comp_map[f.file] += f.value` in finding
order. -/
def compMap (comp : List ComplexityFinding) : List (String × ℚ) :=
  comp.foldl (fun m f => dictAdd m f.file f.value) []

/-- The unsorted hotspot rows: one per `comp_map` entry, with
`fi = fan_in.get(Path(path).stem, 0)` and
`score = _norm(fi, max_fi or 1) * _norm(comp, max_comp or 1)`. -/
def hotspotRows (comp : List ComplexityFinding) (fanIn : List (String × ℤ)) :
    List HotspotRow :=
  let cm := compMap comp
  let maxComp := maxValuesQ cm
  let maxFi := maxValuesZ fanIn
  cm.map (fun pc =>
    let fiVal := dictGet fanIn (pyStem pc.1) 0
    let scoreVal := norm (fiVal : ℚ) (orOne (maxFi : ℚ)) * norm pc.2 (orOne maxComp)
    { path := pc.1, score := scoreVal, fan_in := fiVal, comp := pc.2 })

/-- Decimal digits of a fractional part `0 ≤ r < 1`, most significant
first, stopping when the expansion terminates (fuel-bounded). -/
def fracDigits (fuel : ℕ) (r : ℚ) : List Char :=
  match fuel with
  | 0 => []
  | fuel + 1 =>
      if r = 0 then []
      else
        let r10 := r * 10
        let d := Int.floor r10
        Char.ofNat (48 + d.toNat) :: fracDigits fuel (r10 - (d : ℚ))

/-- Python `repr` of a non-negative float value whose decimal expansion
terminates: integer part, a dot, then the fraction digits (`"0"` when the
value is integral) — e.g. `0.0 ↦ "0.0"`, `10.0 ↦ "10.0"`, `0.5 ↦ "0.5"`.
(CPython prints the shortest round-tripping decimal; on decimal-exact
values, which is what the hotspot rows carry in every comparison that can
tie, the two agree.) -/
def pyReprFloatNN (q : ℚ) : String :=
  let n := Int.floor q
  let ds := fracDigits 64 (q - (n : ℚ))
  toString n ++ "." ++ (if ds.isEmpty then "0" else String.mk ds)

/-- Python `repr` of a float, sign included. -/
def pyReprFloat (q : ℚ) : String :=
  if q < 0 then "-" ++ pyReprFloatNN (-q) else pyReprFloatNN q

/-- Python `repr` of a path string inside a tuple: single-quoted, or
double-quoted when the content itself contains a single quote (the quote
choice CPython makes; escape sequences inside the content, which no
modelled path contains, are not rendered). -/
def pyReprStr (s : String) : String :=
  if s.toList.contains '\x27' then "\"" ++ s ++ "\"" else "\x27" ++ s ++ "\x27"

/-- Python `str(r)` for a hotspot row tuple
`(str(path), float(score), int(fan_in), float(comp))`. -/
def rowStr (r : HotspotRow) : String :=
  "(" ++ pyReprStr r.path ++ ", " ++ pyReprFloat r.score ++ ", " ++
    toString r.fan_in ++ ", " ++ pyReprFloat r.comp ++ ")"

/-- Python `<` on lists of characters (code-point lexicographic). -/
def charListLtb : List Char → List Char → Bool
  | [], [] => false
  | [], _ :: _ => true
  | _ :: _, [] => false
  | a :: as, b :: bs =>
      if a < b then true
      else if b < a then false
      else charListLtb as bs

/-- Python `<=` on strings: the negation of the reversed strict order. -/
def strLeb (a b : String) : Bool := !(charListLtb b.toList a.toList)

/-- One component of Python's tuple comparison for the negated sort key:
a row precedes another when its `f`-component is larger (the key negates
it), loses when smaller, and defers to the next component on a tie. -/
def pyKeyLayer {α : Type} [LinearOrder α] (f : HotspotRow → α)
    (inner : HotspotRow → HotspotRow → Bool) (a b : HotspotRow) : Bool :=
  if f b < f a then true
  else if f a < f b then false
  else inner a b

/-- The final tuple component: ascending `str(r)`. -/
def strKey (a b : HotspotRow) : Bool := strLeb (rowStr a) (rowStr b)

/-- The sort key of `hotspots.sort(key=lambda r: (-score, -fan_in, -comp, str(r)))`,
expressed as the (total) `≤` relation it induces on rows: descending by
score, then fan-in, then complexity sum, with ascending `str(r)` breaking
the remaining ties. -/
def keyLEb : HotspotRow → HotspotRow → Bool :=
  pyKeyLayer (fun r => r.score)
    (pyKeyLayer (fun r => r.fan_in)
      (pyKeyLayer (fun r => r.comp) strKey))

/-- The key order as a decidable relation. -/
def hotspotLe (a b : HotspotRow) : Prop := keyLEb a b = true

instance : DecidableRel hotspotLe := fun a b =>
  inferInstanceAs (Decidable (keyLEb a b = true))

/-- The `hotspots.sort(...)` call: Python's stable sort by the key above
(insertion sort is stable, and the key relation below is total, so it
computes the same sequence). -/
def sortHotspots (l : List HotspotRow) : List HotspotRow :=
  l.insertionSort hotspotLe

/-- The full hotspot ranking of `run_analysis`: aggregate complexity per
file, build the rows, sort by the key. -/
def hotspots (comp : List ComplexityFinding) (fanIn : List (String × ℤ)) :
    List HotspotRow :=
  sortHotspots (hotspotRows comp fanIn)

/-
The spec's own scoring formula for complexity (for comparison with the
implementation), and concrete inputs used to instantiate the theorems
below.
-/

/-- The complexity formula as worded in the spec:
`clamp((value − warn_at) / (2 × warn_at)) × weight`, i.e. BOTH clamps
applied to the normalized magnitude before the weight is multiplied in. -/
def score_complexity_specFormula (cc weight : ℚ) (warn_at : ℚ) : ℚ :=
  clamp01 (max 0 ((cc - warn_at) / (warn_at * 2))) * weight

/-- A Python source file whose text CPython's `ast.parse` rejects
(e.g. the text `"def f(:"`). -/
def exBadPyFile : SourceFile :=
  { rel := "bad.py", astOutcome := Except.error "SyntaxError: invalid syntax" }

/-- A JS/TS extractor standing in for `parse_js_ts` (which always returns
a module; its exact output is irrelevant to the Python-side claims). -/
def exJsParse : String → String → ModuleIR :=
  fun p lang => { path := p, lang := lang, functions := [] }

/-- A weights override assigning security a numeric `0.5` and complexity a
non-numeric string. -/
def exOverridden : WeightsState :=
  override_weights initWeights
    (some [("security", PyVal.num 0.5), ("complexity", PyVal.str "high")])

/-- A concrete security finding to score. -/
def exSecFinding : SecFinding :=
  { id := "x.py::3#pysec", category := "security",
    message := "Use of eval is dangerous", file := "x.py",
    start_line := 3, end_line := 3 }

/-- An `ast.If` node with no children. -/
def exIfNode : PyNode := PyNode.mk NodeKind.ifStmt []

/-- A `FunctionDef` node whose body consists of 12 if-statements. -/
def exFnNode12 : PyNode :=
  PyNode.mk (NodeKind.functionDef false "big" 1 40 none "def big(): ...")
    (List.replicate 12 exIfNode)

/-- The module AST containing that function. -/
def exModuleAst12 : PyNode := PyNode.mk NodeKind.moduleNode [exFnNode12]

/-- The functions `parse_python` extracts from it. -/
def exFunctions12 : List FunctionIR :=
  match parse_python "m.py" (Except.ok exModuleAst12) with
  | Except.ok m => m.functions
  | Except.error _ => []

/-- The complexity finding scenario A produces (value `13 = 1 + 12`). -/
def exScenarioAFinding : ComplexityFinding :=
  { id := "m.py::big:1#complexity", category := "complexity"
    message := "High cyclomatic complexity: 13 (≥ 10)"
    file := "m.py", start_line := 1, end_line := 40
    value := 13, threshold := 10 }

/-- A function whose branch constructs are `if`/`return`. -/
def exDupFnA : FunctionIR :=
  { id := "a.py::f:1", name := "f", lang := "python"
    span := { path := "a.py", start_line := 1, end_line := 2 }
    doc := none, text := "if (alpha) ; return beta ;"
    metrics := [("complexity_branch_count", 1)] }

/-- A function identical up to which keywords/identifiers it uses
(`for`/`while` instead of `if`/`return`). -/
def exDupFnB : FunctionIR :=
  { id := "b.py::g:1", name := "g", lang := "python"
    span := { path := "b.py", start_line := 1, end_line := 2 }
    doc := none, text := "for (gamma) ; while delta ;"
    metrics := [("complexity_branch_count", 2)] }

/-- The duplication finding the detector reports for the pair above. -/
def exDupFinding : DupFinding :=
  { id := "a.py::f:1~b.py::g:1#dup", category := "duplication"
    message := "Near-duplicate functions (Jaccard 1.00)"
    files := ("a.py", "b.py"), lines := ((1, 2), (1, 2)), similarity := 1 }

/-- Raw dependency edges exercising trimming, the self-loop drop, the
empty-endpoint drop and duplicate collapsing. -/
def exDepEdges : List DepEdge :=
  [{ src := " a ", dst := "b" }, { src := "c", dst := "c" },
   { src := "", dst := "d" }, { src := "b", dst := "a" },
   { src := "a", dst := "b" }]

/-- Edges of the complete directed graph on 20 nodes. -/
def exK20Edges : List DepEdge :=
  (List.range 20).flatMap (fun i =>
    (List.range 20).filterMap (fun j =>
      if i = j then none
      else some { src := "n" ++ toString i, dst := "n" ++ toString j }))

/-- A stand-in cycle enumerator returning far more than the caps allow
(15 cycles of 12 nodes each), to exercise both truncations. -/
def exCyclesImpl : Finset (String × String) → List (List String) :=
  fun _ => List.replicate 15 (List.replicate 12 "n0")

/-- One complexity finding against a named file (helper for the hotspot
examples). -/
def exCompFindingFor (file : String) : ComplexityFinding :=
  { id := file ++ "::1#complexity", category := "complexity"
    message := "High cyclomatic complexity: 11 (≥ 10)"
    file := file, start_line := 1, end_line := 2
    value := 10, threshold := 10 }

/-- Three files with fully tied numeric hotspot keys whose paths are
`"a"`, `"a!"` and `"b"`. -/
def exTieFindings : List ComplexityFinding :=
  [exCompFindingFor "a", exCompFindingFor "a!", exCompFindingFor "b"]

/-- Two distinct hotspot rows with identical numeric fields. -/
def exRowP : HotspotRow := { path := "p", score := 1, fan_in := 2, comp := 3 }

/-- A second row differing from `exRowP` only in its path. -/
def exRowQ : HotspotRow := { path := "q", score := 1, fan_in := 2, comp := 3 }

/-
General lemmas: adequacy of the structural step budgets used above.
-/

theorem PyNode.sizeList_append (a b : List PyNode) :
    PyNode.sizeList (a ++ b) = PyNode.sizeList a + PyNode.sizeList b := by
  induction a with
  | nil => simp [PyNode.sizeList]
  | cons n ns ih => simp [PyNode.sizeList, ih]; ring


/-- The remainder returned by `nextToken` never grows. -/
theorem nextToken_rem_length (c : Char) (rest : List Char) :
    (nextToken c rest).2.length ≤ rest.length := by
  unfold nextToken
  repeat' split
  all_goals simp [List.length_drop, List.length_tail]


/-- Any budget at least the queue's node count yields the same traversal,
so `walkQueue` is the true (fuel-free) BFS fixpoint. -/
theorem walkQueueF_fuel : ∀ fuel (q : List PyNode), PyNode.sizeList q ≤ fuel →
    walkQueueF fuel q = walkQueue q := by
  intro fuel
  induction fuel using Nat.strong_induction_on with
  | _ fuel ih =>
    intro q hq
    match fuel, q with
    | 0, [] => rfl
    | 0, (PyNode.mk k cs) :: rest =>
        exfalso
        simp [PyNode.sizeList, PyNode.size] at hq
    | fuel + 1, [] => rfl
    | fuel + 1, (PyNode.mk k cs) :: rest =>
        have hs : PyNode.sizeList (rest ++ cs) + 1 =
            PyNode.sizeList (PyNode.mk k cs :: rest) := by
          simp [PyNode.sizeList_append, PyNode.sizeList, PyNode.size]
          omega
        have h1 : PyNode.sizeList (rest ++ cs) ≤ fuel := by
          simp [PyNode.sizeList, PyNode.size] at hq
          simp [PyNode.sizeList_append]
          omega
        have e1 : walkQueueF fuel (rest ++ cs) = walkQueue (rest ++ cs) :=
          ih fuel (Nat.lt_succ_self fuel) _ h1
        show PyNode.mk k cs :: walkQueueF fuel (rest ++ cs) =
          walkQueue (PyNode.mk k cs :: rest)
        rw [e1]
        show PyNode.mk k cs :: walkQueue (rest ++ cs) =
          walkQueueF (PyNode.sizeList (PyNode.mk k cs :: rest))
            (PyNode.mk k cs :: rest)
        rw [← hs]
        rfl


/-- Any budget at least the character count yields the same token stream,
so `scanTokens` is the true (fuel-free) scanner fixpoint. -/
theorem scanTokensF_fuel : ∀ fuel (cs : List Char), cs.length ≤ fuel →
    scanTokensF fuel cs = scanTokens cs := by
  intro fuel
  induction fuel using Nat.strong_induction_on with
  | _ fuel ih =>
    intro cs hq
    match fuel, cs with
    | 0, [] => rfl
    | 0, c :: rest => exfalso; simp at hq
    | fuel + 1, [] => rfl
    | fuel + 1, c :: rest =>
        have hrest : rest.length ≤ fuel := by
          simp at hq; omega
        have hlt : rest.length < fuel + 1 := by omega
        have key : ∀ (a : List Char), a.length ≤ rest.length →
            scanTokensF fuel a = scanTokensF rest.length a := by
          intro a ha
          rw [ih fuel (Nat.lt_succ_self fuel) a (ha.trans hrest),
            ih rest.length hlt a ha]
        have hrem := nextToken_rem_length c rest
        have step : ∀ n, scanTokensF (n + 1) (c :: rest) =
            (match nextToken c rest with
             | (some t, rem) => t :: scanTokensF n rem
             | (none, rem) => scanTokensF n rem) := fun n => rfl
        show scanTokensF (fuel + 1) (c :: rest) =
          scanTokensF (rest.length + 1) (c :: rest)
        rcases hnt : nextToken c rest with ⟨t?, rem⟩
        rw [hnt] at hrem
        rw [step fuel, step rest.length, hnt]
        cases t? with
        | some t =>
            show t :: scanTokensF fuel rem = t :: scanTokensF rest.length rem
            rw [key rem hrem]
        | none =>
            show scanTokensF fuel rem = scanTokensF rest.length rem
            exact key rem hrem


/-
Claim theorems.
-/

/-- C1: the claim says a file whose content the extractor cannot parse
still yields a `ModuleUnit` with an empty function list and the parse
failure never aborts the run.  The code disagrees: `parse_python` calls
`ast.parse` with no handler and `_parse_modules` only guards the file
read, so the `SyntaxError` escapes `analyze_repository`.  First conjunct:
for any JS/TS extractor, any error message and any remaining files, one
bad Python file aborts the whole parse stage with that very error (so no
module list containing the file is ever produced); the second conjunct
evaluates the concrete failing input. -/
theorem parse_modules_python_syntax_error_aborts :
    (∀ (jsParse : String → String → ModuleIR) (e : String) (rest : List SourceFile),
      parseModules jsParse
        ({ rel := "bad.py", astOutcome := Except.error e } :: rest) =
        Except.error e) ∧
    parseModules exJsParse [exBadPyFile] =
      Except.error "SyntaxError: invalid syntax" := by
  exact ⟨fun _ _ _ => rfl, rfl⟩

unseal Rat.mul Rat.add Rat.sub Rat.inv Rat.ofScientific in
/-- C2: the claim says scoring uses the weights overridden via
`override_weights`.  The code disagrees: `_score_all_findings` reads the
`DEFAULT_WEIGHTS` name that runner.py bound with `from ... import`
at module load, and `override_weights` only rebinds severity.py's
global, so no override ever reaches scoring.  First conjunct: NO override
call changes the binding the scorer reads.  The remaining conjuncts
evaluate the failing input: after overriding security to `0.5` (with a
non-numeric complexity entry correctly ignored, keeping `0.6`), the
severity-module mapping holds `0.5`, yet a security finding is still
scored `1.0`, the original weight. -/
theorem override_weights_not_seen_by_scoring :
    (∀ (st : WeightsState) (m : Option (List (String × PyVal))),
      (override_weights st m).runnerWeights = st.runnerWeights) ∧
    dictGet exOverridden.severityWeights "security" 0 = 1/2 ∧
    dictGet exOverridden.severityWeights "complexity" 0 = 3/5 ∧
    (runnerScoreSecurity exOverridden.runnerWeights exSecFinding).score = 1 ∧
    (runnerScoreSecurity exOverridden.runnerWeights exSecFinding).score ≠ 1/2 := by
  refine ⟨fun st m => ?_, by decide, by decide, by decide, by decide⟩
  cases m with
  | none => rfl
  | some l =>
      by_cases h : l.isEmpty <;> simp [override_weights, h]

unseal Rat.mul Rat.add Rat.sub Rat.inv Rat.ofScientific in
/-- C3 counterexample: scenario A (a function with 12 if-statements,
`warn_at = 10`, default weights) does yield exactly one complexity finding
with value 13, but its normalized score is `0.09`, below the `0.40` P2
cutoff the claim asserts, and its tier is P3. -/
theorem scenarioA_severity_below_P2 :
    detect_complexity exFunctions12 10 = [exScenarioAFinding] ∧
    (runnerScoreComplexity DEFAULT_WEIGHTS (some 10) exScenarioAFinding).score
      = 9/100 ∧
    ¬((runnerScoreComplexity DEFAULT_WEIGHTS (some 10)
        exScenarioAFinding).score ≥ 2/5) ∧
    (runnerScoreComplexity DEFAULT_WEIGHTS (some 10)
        exScenarioAFinding).severity = "P3" := by
  refine ⟨by decide, by decide, by decide, by decide⟩

unseal Rat.mul Rat.add Rat.sub Rat.inv Rat.ofScientific in
/-- C3 amended: with 12 if-statements and `warn_at = 10` the pipeline
emits exactly one complexity finding with value 13; under the default
weight `0.6` its normalized score is `0.09 = clamp01(((13-10)/20) * 0.6)`
and its severity tier is P3 (not P2 or higher). -/
theorem scenarioA_one_finding_value13_tierP3 :
    (detect_complexity exFunctions12 10).length = 1 ∧
    (detect_complexity exFunctions12 10).map (fun f => f.value) = [13] ∧
    (detect_complexity exFunctions12 10).map
      (fun f => (runnerScoreComplexity DEFAULT_WEIGHTS (some 10) f).score)
      = [9/100] ∧
    (detect_complexity exFunctions12 10).map
      (fun f => (runnerScoreComplexity DEFAULT_WEIGHTS (some 10) f).severity)
      = ["P3"] := by
  refine ⟨by decide, by decide, by decide, by decide⟩

unseal Rat.mul Rat.add Rat.sub Rat.inv Rat.ofScientific in
/-- C4 counterexample: the claim's formula applies both clamps to the
normalized magnitude before the weight and asserts saturation at the
weight for `v ≥ 3·warn_at`.  At `v = 50, w = 0.6, warn_at = 10` the code
returns `1` (upper clamp after the weight) while the claimed formula gives
`0.6`, and the code's score strictly exceeds the weight. -/
theorem score_complexity_exceeds_weight_cex :
    score_complexity 50 0.6 10 = 1 ∧
    score_complexity_specFormula 50 0.6 10 = 3/5 ∧
    score_complexity 50 0.6 10 ≠ score_complexity_specFormula 50 0.6 10 ∧
    ¬(score_complexity 50 0.6 10 ≤ 0.6) := by
  refine ⟨by decide, by decide, by decide, by decide⟩

/-- C4 amended: for `warn_at > 0` and `0 ≤ w`, the score is
`min 1 (max 0 ((v − warn_at)/(2·warn_at)) · w)`: only the lower clamp is
applied to the normalized magnitude before the weight, the upper clamp
after; hence the score is bounded by 1 (not by `w`), and for
`v ≥ 3·warn_at` with `w ≤ 1` it is at least `w` (saturating at 1, not at
`w`). -/
theorem score_complexity_min_form (v w t : ℚ) (ht : 0 < t) (hw : 0 ≤ w) :
    score_complexity v w t = min 1 (max 0 ((v - t) / (t * 2)) * w) ∧
    score_complexity v w t ≤ 1 ∧
    (w ≤ 1 → 3 * t ≤ v → w ≤ score_complexity v w t) := by
  have hx : 0 ≤ max 0 ((v - t) / (t * 2)) * w :=
    mul_nonneg (le_max_left 0 _) hw
  have heq : score_complexity v w t = min 1 (max 0 ((v - t) / (t * 2)) * w) := by
    show clamp01 (max 0 ((v - t) / (t * 2)) * w) = _
    unfold clamp01
    split_ifs with h1 h2
    · linarith
    · exact (min_eq_left (le_of_lt h2)).symm
    · exact (min_eq_right (not_lt.mp h2)).symm
  refine ⟨heq, by rw [heq]; exact min_le_left _ _, fun hw1 hv => ?_⟩
  rw [heq]
  have h1 : (1 : ℚ) ≤ (v - t) / (t * 2) := by
    rw [le_div_iff₀ (by positivity)]
    linarith
  have h2 : max 0 ((v - t) / (t * 2)) = (v - t) / (t * 2) :=
    max_eq_right (le_trans zero_le_one h1)
  rw [h2]
  refine le_min hw1 ?_
  calc w = 1 * w := (one_mul w).symm
    _ ≤ (v - t) / (t * 2) * w := mul_le_mul_of_nonneg_right h1 hw

unseal Rat.mul Rat.add Rat.sub Rat.inv Rat.ofScientific in
/-- Witness for the amended C4 theorem at `v = 50, w = 0.6, warn_at = 10`. -/
theorem score_complexity_min_form_witness :
    (0.6 : ℚ) ≤ score_complexity 50 0.6 10 :=
  (score_complexity_min_form 50 0.6 10 (by norm_num) (by norm_num)).2.2
    (by norm_num) (by norm_num)

unseal Rat.mul Rat.add Rat.sub Rat.inv Rat.ofScientific in
/-- C9: the normalizer collapses every identifier-shaped token — language
keywords included — to the single marker `ID`, so the two functions
`exDupFnA`/`exDupFnB`, which differ only in which keywords and identifiers
they use (`if`/`return` vs `for`/`while`), normalize to identical token
streams and are reported as duplicates with similarity exactly `1.0`. -/
theorem normalize_collapses_keywords_to_ID :
    normalize "if for while return" = ["ID", "ID", "ID", "ID"] ∧
    exDupFnA.text ≠ exDupFnB.text ∧
    normalize exDupFnA.text = normalize exDupFnB.text ∧
    detect_duplication [exDupFnA, exDupFnB] = [exDupFinding] ∧
    exDupFinding.similarity = 1 := by
  refine ⟨by decide, by decide, by decide, by decide, by decide⟩

/-- C7: whatever cycle list the (external) simple-cycle enumerator
produces and whatever the input edges are — the complete digraph on 20
nodes included — the metrics' cycle list is truncated to at most 10
cycles of at most 8 nodes each. -/
theorem dep_cycles_truncated
    (impl : Finset (String × String) → List (List String))
    (edges : List DepEdge) :
    (build_dep_graph impl edges).2.cycles.length ≤ 10 ∧
    ∀ c ∈ (build_dep_graph impl edges).2.cycles, c.length ≤ 8 := by
  constructor
  · show (((impl (buildGraphEdges edges)).take 10).map
      (fun c => c.take 8)).length ≤ 10
    rw [List.length_map, List.length_take]
    exact min_le_left _ _
  · intro c hc
    have hc' : c ∈ ((impl (buildGraphEdges edges)).take 10).map
        (fun c => c.take 8) := hc
    obtain ⟨d, _, rfl⟩ := List.mem_map.mp hc'
    rw [List.length_take]
    exact min_le_left _ _

/-- Witness for C7 on the complete digraph on 20 nodes with a cycle
enumerator that returns 15 cycles of 12 nodes each. -/
theorem dep_cycles_truncated_witness :
    (build_dep_graph exCyclesImpl exK20Edges).2.cycles.length ≤ 10 ∧
    ∀ c ∈ (build_dep_graph exCyclesImpl exK20Edges).2.cycles, c.length ≤ 8 :=
  dep_cycles_truncated exCyclesImpl exK20Edges

/-- Kept edges have non-empty, distinct endpoints: one insertion step. -/
theorem addDepEdge_inv {P : String × String → Prop}
    (hP : ∀ src dst, src ≠ "" → dst ≠ "" → src ≠ dst → P (src, dst))
    (G : Finset (String × String)) (e : DepEdge)
    (hG : ∀ x ∈ G, P x) : ∀ x ∈ addDepEdge G e, P x := by
  intro x hx
  unfold addDepEdge at hx
  dsimp only at hx
  split_ifs at hx with h
  · exact hG x hx
  · push_neg at h
    rcases Finset.mem_insert.mp hx with hx | hx
    · subst hx
      exact hP _ _ h.1 h.2.1 h.2.2
    · exact hG x hx

/-- Kept edges have non-empty, distinct endpoints: the whole fold. -/
theorem buildGraphEdges_inv {P : String × String → Prop}
    (hP : ∀ src dst, src ≠ "" → dst ≠ "" → src ≠ dst → P (src, dst)) :
    ∀ (l : List DepEdge) (G : Finset (String × String)),
      (∀ x ∈ G, P x) → ∀ x ∈ l.foldl addDepEdge G, P x := by
  intro l
  induction l with
  | nil => intro G hG; exact hG
  | cons a l ih =>
      intro G hG
      exact ih (addDepEdge G a) (addDepEdge_inv hP G a hG)

/-- Every edge's destination is a node of the graph. -/
theorem snd_mem_graphNodes {G : Finset (String × String)}
    {e : String × String} (he : e ∈ G) : e.2 ∈ graphNodes G :=
  Finset.mem_union_right _ (Finset.mem_image_of_mem Prod.snd he)

/-- Every edge's source is a node of the graph. -/
theorem fst_mem_graphNodes {G : Finset (String × String)}
    {e : String × String} (he : e ∈ G) : e.1 ∈ graphNodes G :=
  Finset.mem_union_left _ (Finset.mem_image_of_mem Prod.fst he)

/-- In-degrees over all nodes sum to the edge count. -/
theorem sum_fanInDeg (G : Finset (String × String)) :
    ∑ n ∈ graphNodes G, fanInDeg G n = G.card :=
  (Finset.card_eq_sum_card_fiberwise (fun _ he => snd_mem_graphNodes he)).symm

/-- Out-degrees over all nodes sum to the edge count. -/
theorem sum_fanOutDeg (G : Finset (String × String)) :
    ∑ n ∈ graphNodes G, fanOutDeg G n = G.card :=
  (Finset.card_eq_sum_card_fiberwise (fun _ he => fst_mem_graphNodes he)).symm

/-- C6: for every input edge list, the built graph contains no self-edge
and no edge with an empty (post-strip) endpoint; the empty string never
appears among the nodes that the `fan_in`/`fan_out` maps are built over;
and both the in-degrees and the out-degrees over all nodes sum to the
number of distinct kept edges. -/
theorem dep_graph_invariants (edges : List DepEdge) :
    (∀ e ∈ buildGraphEdges edges, e.1 ≠ "" ∧ e.2 ≠ "" ∧ e.1 ≠ e.2) ∧
    "" ∉ graphNodes (buildGraphEdges edges) ∧
    ∑ n ∈ graphNodes (buildGraphEdges edges),
      fanInDeg (buildGraphEdges edges) n = (buildGraphEdges edges).card ∧
    ∑ n ∈ graphNodes (buildGraphEdges edges),
      fanOutDeg (buildGraphEdges edges) n = (buildGraphEdges edges).card := by
  have hmem : ∀ e ∈ buildGraphEdges edges, e.1 ≠ "" ∧ e.2 ≠ "" ∧ e.1 ≠ e.2 :=
    buildGraphEdges_inv (fun _ _ h1 h2 h3 => ⟨h1, h2, h3⟩) edges ∅ (by simp)
  refine ⟨hmem, ?_, sum_fanInDeg _, sum_fanOutDeg _⟩
  intro hempty
  rcases Finset.mem_union.mp hempty with h | h
  · obtain ⟨e, he, hfst⟩ := Finset.mem_image.mp h
    exact (hmem e he).1 hfst
  · obtain ⟨e, he, hsnd⟩ := Finset.mem_image.mp h
    exact (hmem e he).2.1 hsnd

/-- Witness for C6 on a concrete edge list exercising trimming, the
self-loop drop, the empty-endpoint drop and duplicate collapsing. -/
theorem dep_graph_invariants_witness :
    "" ∉ graphNodes (buildGraphEdges exDepEdges) ∧
    ∑ n ∈ graphNodes (buildGraphEdges exDepEdges),
      fanInDeg (buildGraphEdges exDepEdges) n
      = (buildGraphEdges exDepEdges).card :=
  ⟨(dep_graph_invariants exDepEdges).2.1,
    (dep_graph_invariants exDepEdges).2.2.1⟩

/-- A key present after a `dictAdd` was already present or is the added
key. -/
theorem dictAdd_key_mem (d : List (String × ℚ)) (k : String) (v : ℚ) :
    ∀ p ∈ dictAdd d k v, p.1 ∈ d.map Prod.fst ∨ p.1 = k := by
  intro p hp
  unfold dictAdd at hp
  split_ifs at hp with h
  · obtain ⟨q, hq, hpe⟩ := List.mem_map.mp hp
    by_cases hqk : q.1 == k
    · rw [if_pos hqk] at hpe
      have h1 : p.1 = q.1 := by rw [← hpe]
      left
      rw [h1]
      exact List.mem_map_of_mem Prod.fst hq
    · rw [if_neg hqk] at hpe
      have h1 : p.1 = q.1 := by rw [← hpe]
      left
      rw [h1]
      exact List.mem_map_of_mem Prod.fst hq
  · rcases List.mem_append.mp hp with h1 | h1
    · left
      exact List.mem_map_of_mem Prod.fst h1
    · right
      simp at h1
      rw [h1]

/-- Every key of the complexity aggregation dict is the `file` of some
finding (or was present in the starting dict). -/
theorem compMap_keys_from_findings :
    ∀ (comp : List ComplexityFinding) (m : List (String × ℚ)),
      ∀ p ∈ comp.foldl (fun m f => dictAdd m f.file f.value) m,
        p.1 ∈ m.map Prod.fst ∨ ∃ f ∈ comp, f.file = p.1 := by
  intro comp
  induction comp with
  | nil =>
      intro m p hp
      exact Or.inl (List.mem_map_of_mem Prod.fst hp)
  | cons f l ih =>
      intro m p hp
      simp only [List.foldl_cons] at hp
      rcases ih (dictAdd m f.file f.value) p hp with h | h
      · obtain ⟨q, hq, hq1⟩ := List.mem_map.mp h
        rcases dictAdd_key_mem m f.file f.value q hq with h2 | h2
        · left
          rw [← hq1]
          exact h2
        · right
          exact ⟨f, List.mem_cons_self f l, by rw [← hq1, h2]⟩
      · obtain ⟨g, hg, hgf⟩ := h
        exact Or.inr ⟨g, List.mem_cons_of_mem f hg, hgf⟩

/-- C10: every hotspot row's path is the file of at least one complexity
finding — a file with no complexity finding never appears in the hotspot
list, whatever its fan-in. -/
theorem hotspots_only_complexity_files
    (comp : List ComplexityFinding) (fanIn : List (String × ℤ)) :
    ∀ row ∈ hotspots comp fanIn, ∃ f ∈ comp, f.file = row.path := by
  intro row hrow
  have hperm : List.Perm (List.insertionSort hotspotLe (hotspotRows comp fanIn))
      (hotspotRows comp fanIn) := List.perm_insertionSort _ _
  have hrow' : row ∈ hotspotRows comp fanIn := hperm.mem_iff.mp hrow
  unfold hotspotRows at hrow'
  dsimp only at hrow'
  obtain ⟨pc, hpc, hrow_eq⟩ := List.mem_map.mp hrow'
  have hpath : row.path = pc.1 := by rw [← hrow_eq]
  rcases compMap_keys_from_findings comp [] pc hpc with h | h
  · simp at h
  · obtain ⟨f, hf, hff⟩ := h
    exact ⟨f, hf, by rw [hff, hpath]⟩

unseal Rat.mul Rat.add Rat.sub Rat.inv Rat.ofScientific in
/-- Witness for C10: the single hotspot row produced by one complexity
finding against file `"a"` indeed carries that file. -/
theorem hotspots_only_complexity_files_witness :
    ∃ f ∈ [exCompFindingFor "a"],
      f.file = (⟨"a", 0, 0, 10⟩ : HotspotRow).path :=
  hotspots_only_complexity_files [exCompFindingFor "a"] []
    ⟨"a", 0, 0, 10⟩ (by decide)

/-- Every pair the inner duplication loop reports pairs the fixed function
with a same-language partner from the remaining candidates, in a different
file. -/
theorem dupInner_mem {fi : FunctionIR} {si : Finset (List String)}
    {thr : ℚ} {rest : List (FunctionIR × Finset (List String))}
    {fd : DupFinding} (h : fd ∈ dupInner fi si thr rest) :
    ∃ gj ∈ rest, fi.lang = gj.1.lang ∧ fi.span.path ≠ gj.1.span.path ∧
      fd.files = (fi.span.path, gj.1.span.path) := by
  obtain ⟨gj, hg, he⟩ := List.mem_filterMap.mp h
  refine ⟨gj, hg, ?_⟩
  dsimp only at he
  split_ifs at he with h1 h2 h3 <;>
    first
      | exact absurd he (fun hx => Option.noConfusion hx)
      | · refine ⟨not_not.mp h1, h3.2, ?_⟩
          rw [← Option.some.inj he]
          simp [mkDupFinding]

/-- Every pair the outer duplication loop reports consists of two
same-language candidates from different files. -/
theorem dupOuter_mem {oracle : ℕ → Bool} {thr : ℚ} :
    ∀ (pairs : List (FunctionIR × Finset (List String))) (i : ℕ)
      (fd : DupFinding), fd ∈ dupOuter oracle thr i pairs →
      ∃ f sf g sg, (f, sf) ∈ pairs ∧ (g, sg) ∈ pairs ∧ f.lang = g.lang ∧
        f.span.path ≠ g.span.path ∧ fd.files = (f.span.path, g.span.path) := by
  intro pairs
  induction pairs with
  | nil =>
      intro i fd h
      simp [dupOuter] at h
  | cons p rest ih =>
      obtain ⟨pf, ps⟩ := p
      intro i fd h
      unfold dupOuter at h
      split_ifs at h with hb hemp
      · simp at h
      · rcases List.mem_append.mp h with h1 | h1
        · simp at h1
        · obtain ⟨f, sf, g, sg, hf, hg, rest'⟩ := ih (i + 1) fd h1
          exact ⟨f, sf, g, sg, List.mem_cons_of_mem (pf, ps) hf,
            List.mem_cons_of_mem (pf, ps) hg, rest'⟩
      · rcases List.mem_append.mp h with h1 | h1
        · obtain ⟨gj, hg, hlang, hpath, hfiles⟩ := dupInner_mem h1
          exact ⟨pf, ps, gj.1, gj.2,
            List.mem_cons_self (pf, ps) rest,
            by rw [Prod.mk.eta]; exact List.mem_cons_of_mem (pf, ps) hg,
            hlang, hpath, hfiles⟩
        · obtain ⟨f, sf, g, sg, hf, hg, rest'⟩ := ih (i + 1) fd h1
          exact ⟨f, sf, g, sg, List.mem_cons_of_mem (pf, ps) hf,
            List.mem_cons_of_mem (pf, ps) hg, rest'⟩

/-- The candidate filter only selects functions from its input (or the
accumulator it started with). -/
theorem selectCandidates_subset (mf ml : ℕ) :
    ∀ (l acc : List FunctionIR) (x : FunctionIR),
      x ∈ selectCandidates mf ml l acc → x ∈ acc ∨ x ∈ l := by
  intro l
  induction l with
  | nil =>
      intro acc x hx
      exact Or.inl hx
  | cons fn rest ih =>
      intro acc x hx
      unfold selectCandidates at hx
      dsimp only at hx
      by_cases hlen : mf ≤ (if fn.text.length ≤ ml then acc ++ [fn] else acc).length
      · rw [if_pos hlen] at hx
        split_ifs at hx with htext
        · rcases List.mem_append.mp hx with h | h
          · exact Or.inl h
          · simp at h
            exact Or.inr (h ▸ List.mem_cons_self fn rest)
        · exact Or.inl hx
      · rw [if_neg hlen] at hx
        rcases ih _ x hx with h | h
        · split_ifs at h with htext
          · rcases List.mem_append.mp h with h' | h'
            · exact Or.inl h'
            · simp at h'
              exact Or.inr (h' ▸ List.mem_cons_self fn rest)
          · exact Or.inl h
        · exact Or.inr (List.mem_cons_of_mem fn h)

/-- C5: every finding `detect_duplication` reports — for any shingle size,
any threshold, any candidate caps and any time-budget behaviour — pairs
two input functions of the same language whose source files differ; in
particular its two reported file paths are distinct. -/
theorem dup_findings_cross_file_same_lang
    (functions : List FunctionIR) (k : ℕ) (threshold : ℚ)
    (max_funcs max_len : ℕ) (budgetHit : ℕ → Bool) (fd : DupFinding)
    (hfd : fd ∈ detect_duplication functions k threshold max_funcs max_len
      budgetHit) :
    fd.files.1 ≠ fd.files.2 ∧
    ∃ f g, f ∈ functions ∧ g ∈ functions ∧ f.lang = g.lang ∧
      fd.files = (f.span.path, g.span.path) := by
  unfold detect_duplication at hfd
  dsimp only at hfd
  obtain ⟨f, sf, g, sg, hf, hg, hlang, hpath, hfiles⟩ :=
    dupOuter_mem _ _ _ hfd
  have hf' : f ∈ selectCandidates max_funcs max_len functions [] := by
    obtain ⟨a, ha, he⟩ := List.mem_map.mp hf
    rw [show a = f from congrArg Prod.fst he] at ha
    exact ha
  have hg' : g ∈ selectCandidates max_funcs max_len functions [] := by
    obtain ⟨a, ha, he⟩ := List.mem_map.mp hg
    rw [show a = g from congrArg Prod.fst he] at ha
    exact ha
  have hfc : f ∈ functions := by
    rcases selectCandidates_subset max_funcs max_len functions [] f hf' with h | h
    · simp at h
    · exact h
  have hgc : g ∈ functions := by
    rcases selectCandidates_subset max_funcs max_len functions [] g hg' with h | h
    · simp at h
    · exact h
  refine ⟨?_, f, g, hfc, hgc, hlang, hfiles⟩
  rw [hfiles]
  exact hpath

unseal Rat.mul Rat.add Rat.sub Rat.inv Rat.ofScientific in
/-- Witness for C5 on the concrete duplicate pair: the reported file pair
is cross-file. -/
theorem dup_findings_cross_file_same_lang_witness :
    exDupFinding.files.1 ≠ exDupFinding.files.2 :=
  (dup_findings_cross_file_same_lang [exDupFnA, exDupFnB] 7 0.90 400 2000
    (fun _ => false) exDupFinding (by decide)).1

/-
Order-theoretic facts about the hotspot sort key (C8).
-/

/-- Head/tail characterization of the character-list strict order. -/
theorem charListLtb_cons (x y : Char) (xs ys : List Char) :
    charListLtb (x :: xs) (y :: ys) = true ↔
      x < y ∨ (x = y ∧ charListLtb xs ys = true) := by
  rw [show charListLtb (x :: xs) (y :: ys) =
    (if x < y then true else if y < x then false else charListLtb xs ys)
    from rfl]
  split_ifs with g1 g2
  · simp [g1]
  · constructor
    · intro h
      exact absurd h (by simp)
    · rintro (h | ⟨h, _⟩)
      · exact absurd h g1
      · exact absurd (h ▸ g2) (lt_irrefl y)
  · have hxy : x = y := le_antisymm (not_lt.mp g2) (not_lt.mp g1)
    simp [hxy]

/-- The character-list strict order is asymmetric. -/
theorem charListLtb_asymm : ∀ a b : List Char,
    charListLtb a b = true → charListLtb b a = false := by
  intro a
  induction a with
  | nil =>
      intro b h
      cases b with
      | nil => simpa [charListLtb] using h
      | cons y ys => rfl
  | cons x xs ih =>
      intro b h
      cases b with
      | nil => simp [charListLtb] at h
      | cons y ys =>
          rw [← Bool.not_eq_true]
          intro hba
          rcases (charListLtb_cons x y xs ys).mp h with h1 | ⟨h1, h1'⟩ <;>
            rcases (charListLtb_cons y x ys xs).mp hba with h2 | ⟨h2, h2'⟩
          · exact absurd h1 (lt_asymm h2)
          · exact absurd (h2 ▸ h1) (lt_irrefl x)
          · exact absurd (h1 ▸ h2) (lt_irrefl y)
          · rw [ih ys h1'] at h2'
            exact Bool.false_ne_true h2'

/-- Two lists neither of which is below the other are equal. -/
theorem charListLtb_eq_of_not_lt : ∀ a b : List Char,
    charListLtb a b = false → charListLtb b a = false → a = b := by
  intro a
  induction a with
  | nil =>
      intro b h1 _
      cases b with
      | nil => rfl
      | cons y ys => simp [charListLtb] at h1
  | cons x xs ih =>
      intro b h1 h2
      cases b with
      | nil => simp [charListLtb] at h2
      | cons y ys =>
          have hx : ¬ x < y := by
            intro hlt
            have ht : charListLtb (x :: xs) (y :: ys) = true :=
              (charListLtb_cons x y xs ys).mpr (Or.inl hlt)
            rw [h1] at ht
            exact Bool.false_ne_true ht
          have hy : ¬ y < x := by
            intro hlt
            have ht : charListLtb (y :: ys) (x :: xs) = true :=
              (charListLtb_cons y x ys xs).mpr (Or.inl hlt)
            rw [h2] at ht
            exact Bool.false_ne_true ht
          have hxy : x = y := le_antisymm (not_lt.mp hy) (not_lt.mp hx)
          have hxs : charListLtb xs ys = false := by
            rw [← Bool.not_eq_true]
            intro ht
            have ht' : charListLtb (x :: xs) (y :: ys) = true :=
              (charListLtb_cons x y xs ys).mpr (Or.inr ⟨hxy, ht⟩)
            rw [h1] at ht'
            exact Bool.false_ne_true ht'
          have hys : charListLtb ys xs = false := by
            rw [← Bool.not_eq_true]
            intro ht
            have ht' : charListLtb (y :: ys) (x :: xs) = true :=
              (charListLtb_cons y x ys xs).mpr (Or.inr ⟨hxy.symm, ht⟩)
            rw [h2] at ht'
            exact Bool.false_ne_true ht'
          rw [hxy, ih ys hxs hys]

/-- The character-list strict order is transitive. -/
theorem charListLtb_trans : ∀ a b c : List Char,
    charListLtb a b = true → charListLtb b c = true →
    charListLtb a c = true := by
  intro a
  induction a with
  | nil =>
      intro b c hab hbc
      cases b with
      | nil => simpa [charListLtb] using hab
      | cons y ys =>
          cases c with
          | nil => simp [charListLtb] at hbc
          | cons z zs => rfl
  | cons x xs ih =>
      intro b c hab hbc
      cases b with
      | nil => simp [charListLtb] at hab
      | cons y ys =>
          cases c with
          | nil => simp [charListLtb] at hbc
          | cons z zs =>
              rcases (charListLtb_cons x y xs ys).mp hab with h1 | ⟨h1, h1'⟩ <;>
                rcases (charListLtb_cons y z ys zs).mp hbc with h2 | ⟨h2, h2'⟩
              · exact (charListLtb_cons x z xs zs).mpr
                  (Or.inl (lt_trans h1 h2))
              · exact (charListLtb_cons x z xs zs).mpr (Or.inl (h2 ▸ h1))
              · exact (charListLtb_cons x z xs zs).mpr
                  (Or.inl (h1.symm ▸ h2))
              · exact (charListLtb_cons x z xs zs).mpr
                  (Or.inr ⟨h1.trans h2, ih ys zs h1' h2'⟩)

/-- Python string `<=` is total. -/
theorem strLeb_total (s t : String) : strLeb s t = true ∨ strLeb t s = true := by
  unfold strLeb
  rcases hb : charListLtb t.toList s.toList with _ | _
  · left
    simp
  · right
    rw [charListLtb_asymm _ _ hb]
    rfl

/-- Python string `<=` is transitive. -/
theorem strLeb_trans (a b c : String) (h1 : strLeb a b = true)
    (h2 : strLeb b c = true) : strLeb a c = true := by
  unfold strLeb at h1 h2 ⊢
  simp only [Bool.not_eq_true'] at h1 h2 ⊢
  rw [← Bool.not_eq_true]
  intro hca
  by_cases hab : charListLtb a.toList b.toList = true
  · have hcb := charListLtb_trans _ _ _ hca hab
    rw [h2] at hcb
    exact Bool.false_ne_true hcb
  · have heq : a.toList = b.toList :=
      charListLtb_eq_of_not_lt _ _ (Bool.eq_false_iff.mpr hab) h1
    rw [heq] at hca
    rw [h2] at hca
    exact Bool.false_ne_true hca

/-- Equality of the underlying character data gives string equality. -/
theorem strData_inj {s t : String} (h : s.data = t.data) : s = t := by
  cases s
  cases t
  exact congrArg String.mk h

/-- Python string `<=` is antisymmetric. -/
theorem strLeb_antisymm (a b : String) (h1 : strLeb a b = true)
    (h2 : strLeb b a = true) : a = b := by
  unfold strLeb at h1 h2
  simp only [Bool.not_eq_true'] at h1 h2
  exact strData_inj (charListLtb_eq_of_not_lt a.toList b.toList h2 h1)

/-- A layer comparison forces the key component ordering. -/
theorem pyKeyLayer_le {α : Type} [LinearOrder α] (f : HotspotRow → α)
    (inner : HotspotRow → HotspotRow → Bool) (a b : HotspotRow)
    (h : pyKeyLayer f inner a b = true) : f b ≤ f a := by
  unfold pyKeyLayer at h
  split_ifs at h with g1 g2
  · exact le_of_lt g1
  · exact not_lt.mp g2

/-- On a component tie a layer defers to the inner comparison. -/
theorem pyKeyLayer_inner_of_eq {α : Type} [LinearOrder α]
    (f : HotspotRow → α) (inner : HotspotRow → HotspotRow → Bool)
    (a b : HotspotRow) (h : f a = f b) :
    pyKeyLayer f inner a b = inner a b := by
  unfold pyKeyLayer
  simp [h, lt_irrefl]

/-- Totality lifts through a layer. -/
theorem pyKeyLayer_total {α : Type} [LinearOrder α] (f : HotspotRow → α)
    (inner : HotspotRow → HotspotRow → Bool)
    (hinner : ∀ a b, inner a b = true ∨ inner b a = true) (a b : HotspotRow) :
    pyKeyLayer f inner a b = true ∨ pyKeyLayer f inner b a = true := by
  unfold pyKeyLayer
  rcases lt_trichotomy (f a) (f b) with h | h | h
  · right
    simp [h, lt_asymm h]
  · rcases hinner a b with hi | hi
    · left
      simp [h, lt_irrefl, hi]
    · right
      simp [h, lt_irrefl, hi]
  · left
    simp [h, lt_asymm h]

/-- Transitivity lifts through a layer. -/
theorem pyKeyLayer_trans {α : Type} [LinearOrder α] (f : HotspotRow → α)
    (inner : HotspotRow → HotspotRow → Bool)
    (hinner : ∀ a b c, inner a b = true → inner b c = true →
      inner a c = true)
    (a b c : HotspotRow) (hab : pyKeyLayer f inner a b = true)
    (hbc : pyKeyLayer f inner b c = true) :
    pyKeyLayer f inner a c = true := by
  have h1 := pyKeyLayer_le f inner a b hab
  have h2 := pyKeyLayer_le f inner b c hbc
  rcases lt_or_eq_of_le (h2.trans h1) with h | h
  · unfold pyKeyLayer
    simp [h]
  · have hab' : f a = f b := le_antisymm (h ▸ h2) h1
    have hbc' : f b = f c := le_antisymm (h.symm ▸ h1) h2
    rw [pyKeyLayer_inner_of_eq f inner a c (hab'.trans hbc')]
    rw [pyKeyLayer_inner_of_eq f inner a b hab'] at hab
    rw [pyKeyLayer_inner_of_eq f inner b c hbc'] at hbc
    exact hinner a b c hab hbc

/-- Antisymmetry reduces through a layer to the inner comparison. -/
theorem pyKeyLayer_antisymm {α : Type} [LinearOrder α] (f : HotspotRow → α)
    (inner : HotspotRow → HotspotRow → Bool) (a b : HotspotRow)
    (hab : pyKeyLayer f inner a b = true)
    (hba : pyKeyLayer f inner b a = true) :
    f a = f b ∧ inner a b = true ∧ inner b a = true := by
  have h1 := pyKeyLayer_le f inner a b hab
  have h2 := pyKeyLayer_le f inner b a hba
  have heq : f a = f b := le_antisymm h2 h1
  refine ⟨heq, ?_, ?_⟩
  · rw [← pyKeyLayer_inner_of_eq f inner a b heq]
    exact hab
  · rw [← pyKeyLayer_inner_of_eq f inner b a heq.symm]
    exact hba

/-- The quote-choosing string `repr` is injective. -/
theorem pyReprStr_inj {s t : String} (h : pyReprStr s = pyReprStr t) :
    s = t := by
  unfold pyReprStr at h
  have e1 : ("\"" : String).data = ['"'] := by decide
  have e2 : ("\x27" : String).data = ['\x27'] := by decide
  split_ifs at h
  · have hd := congrArg String.data h
    simp only [String.data_append] at hd
    exact strData_inj (List.append_cancel_left (List.append_cancel_right hd))
  · have hd := congrArg String.data h
    simp only [String.data_append, e1, e2] at hd
    simp at hd
  · have hd := congrArg String.data h
    simp only [String.data_append, e1, e2] at hd
    simp at hd
  · have hd := congrArg String.data h
    simp only [String.data_append] at hd
    exact strData_inj (List.append_cancel_left (List.append_cancel_right hd))

/-- Two rows with equal numeric components and equal `str(r)` have the
same path. -/
theorem rowStr_path_inj {a b : HotspotRow} (hs : a.score = b.score)
    (hf : a.fan_in = b.fan_in) (hc : a.comp = b.comp)
    (h : rowStr a = rowStr b) : a.path = b.path := by
  unfold rowStr at h
  rw [hs, hf, hc] at h
  have hd := congrArg String.data h
  simp only [String.data_append, List.append_assoc] at hd
  exact pyReprStr_inj
    (strData_inj (List.append_cancel_right (List.append_cancel_left hd)))

/-- The full hotspot key is total. -/
theorem keyLEb_total (a b : HotspotRow) :
    keyLEb a b = true ∨ keyLEb b a = true :=
  pyKeyLayer_total _ _
    (fun a b => pyKeyLayer_total _ _
      (fun a b => pyKeyLayer_total _ _
        (fun a b => strLeb_total (rowStr a) (rowStr b)) a b) a b) a b

/-- The full hotspot key is transitive. -/
theorem keyLEb_trans (a b c : HotspotRow) (hab : keyLEb a b = true)
    (hbc : keyLEb b c = true) : keyLEb a c = true :=
  pyKeyLayer_trans _ _
    (fun a b c => pyKeyLayer_trans _ _
      (fun a b c => pyKeyLayer_trans _ _
        (fun a b c h1 h2 => strLeb_trans (rowStr a) (rowStr b) (rowStr c) h1 h2)
        a b c) a b c) a b c hab hbc

/-- The full hotspot key is antisymmetric: mutually comparable rows are
equal (this is what makes the ranking a total order on rows). -/
theorem keyLEb_antisymm (a b : HotspotRow) (hab : keyLEb a b = true)
    (hba : keyLEb b a = true) : a = b := by
  obtain ⟨hs, hab1, hba1⟩ := pyKeyLayer_antisymm _ _ _ _ hab hba
  obtain ⟨hf, hab2, hba2⟩ := pyKeyLayer_antisymm _ _ _ _ hab1 hba1
  obtain ⟨hc, hab3, hba3⟩ := pyKeyLayer_antisymm _ _ _ _ hab2 hba2
  have hstr : rowStr a = rowStr b := strLeb_antisymm _ _ hab3 hba3
  have hpath : a.path = b.path := rowStr_path_inj hs hf hc hstr
  cases a
  cases b
  simp_all

instance : IsTotal HotspotRow hotspotLe := ⟨keyLEb_total⟩

instance : IsTrans HotspotRow hotspotLe := ⟨keyLEb_trans⟩

instance : IsAntisymm HotspotRow hotspotLe := ⟨keyLEb_antisymm⟩

unseal Rat.mul Rat.add Rat.sub Rat.inv Rat.ofScientific in
/-- C8 counterexample: three files with fully tied numeric key components
and paths `"a"`, `"a!"`, `"b"`.  The produced order is `["a!", "a", "b"]`:
neither ascending-path (`["a", "a!", "b"]`) nor descending-path
(`["b", "a!", "a"]`), because the final tiebreak compares the Python
string form of the whole row tuple (`str(r)`), in which the quote
character after a path compares differently from `'!'`. -/
theorem hotspot_tiebreak_not_path :
    (hotspots exTieFindings []).map HotspotRow.path = ["a!", "a", "b"] ∧
    (["a!", "a", "b"] : List String) ≠ ["a", "a!", "b"] ∧
    (["a!", "a", "b"] : List String) ≠ ["b", "a!", "a"] := by
  refine ⟨by decide, by decide, by decide⟩

/-- C8 amended: the ranking sorts by the key (score, fan-in, complexity
sum) descending with the ascending Python string form of the whole row as
the final tiebreak; that key relation is a total order (total, transitive
and antisymmetric — witnessed by the instances above), the output is a
sorted permutation of the rows, and the ranking is deterministic: any two
permutations of the same rows sort to the identical sequence, ties
included. -/
theorem hotspot_rank_total_order_deterministic :
    (∀ (comp : List ComplexityFinding) (fanIn : List (String × ℤ)),
      hotspots comp fanIn = sortHotspots (hotspotRows comp fanIn)) ∧
    (∀ l : List HotspotRow,
      (sortHotspots l).Sorted hotspotLe ∧ List.Perm (sortHotspots l) l) ∧
    (∀ l₁ l₂ : List HotspotRow, List.Perm l₁ l₂ →
      sortHotspots l₁ = sortHotspots l₂) := by
  refine ⟨fun _ _ => rfl,
    fun l => ⟨List.sorted_insertionSort _ _, List.perm_insertionSort _ _⟩,
    fun l₁ l₂ hp => ?_⟩
  refine List.eq_of_perm_of_sorted ?_ (List.sorted_insertionSort _ _)
    (List.sorted_insertionSort _ _)
  exact (List.perm_insertionSort _ _).trans
    (hp.trans (List.perm_insertionSort _ _).symm)

/-- Witness for the amended C8 theorem: two orderings of the same two
tied rows sort to the identical sequence. -/
theorem hotspot_rank_total_order_deterministic_witness :
    sortHotspots [exRowP, exRowQ] = sortHotspots [exRowQ, exRowP] :=
  hotspot_rank_total_order_deterministic.2.2 _ _
    (List.Perm.swap exRowQ exRowP [])

end CQIA
